import Mathlib

/-!
Verification of the client-side analytics layer of the deal-tide-tracker
ticket-resale dashboard.

The TypeScript pages compute all analytics in memory over a flat list of
fetched sale rows.  We embed those computations shallowly:

* JS numbers are modelled as exact rationals (`ℚ`); quantities as `ℕ`.
* Timestamps are abstract integers; where a page only compares a sale's
  `sold_at` against precomputed window boundaries (`start7d`, `start14d`)
  the boundaries are passed as integer parameters.  Where a page buckets by
  local calendar day, the sale carries its local day index directly
  (`sold_day`), abstracting the `startOfDay` conversion.
* JS plain objects used as accumulators (`Record<string, …>`) preserve
  insertion order for non-numeric string keys; they are modelled as
  association lists grown by an insertion-order-preserving update.
-/

namespace DealTide

/-- Joined event row attached to a fetched sale
    (`events(name, event_date)` in the page queries). -/
structure EventJoin where
  name : String
  event_date : Option Int
  deriving DecidableEq

/-- In-memory sale row as fetched by the analytics pages
    (`RawSale` in MarketPage, `AnalyticsSale` in RiskPage/HeatmapPage). -/
structure Sale where
  event_id : Option String
  events : Option EventJoin
  sold_at : Int
  ticket_price : ℚ
  quantity : ℕ
  deriving DecidableEq

/-- A sale's revenue contribution: `s.ticket_price * s.quantity`
    (recomputed on every aggregation, never stored). -/
def saleRevenue (s : Sale) : ℚ := s.ticket_price * s.quantity

/-- Total revenue of a list of sales, as every page computes it:
    `sales.reduce((a, s) => a + s.ticket_price * s.quantity, 0)`. -/
def totalRevenue (sales : List Sale) : ℚ := (sales.map saleRevenue).sum

/-- Total units of a list of sales:
    `sales.reduce((a, s) => a + s.quantity, 0)`. -/
def totalUnits (sales : List Sale) : ℕ := (sales.map (fun s => s.quantity)).sum

/-- Grouping key used by RiskPage / HeatmapPage / MarketPage / TopGamesPage:
    `const id = s.event_id ?? "unknown"`. -/
def eventKey (s : Sale) : String := s.event_id.getD "unknown"

/-- Append a sale to the group keyed `k` of an association list, creating the
    group at the end if absent — the behaviour of
    `if (!byEvent[id]) byEvent[id] = []; byEvent[id].push(s)` on a JS object
    (insertion order preserved). -/
def addToGroup (gs : List (String × List Sale)) (k : String) (s : Sale) :
    List (String × List Sale) :=
  match gs with
  | [] => [(k, [s])]
  | (k', l) :: rest =>
      if k' = k then (k', l ++ [s]) :: rest
      else (k', l) :: addToGroup rest k s

/-- The per-event rollup shared by RiskPage (`byEvent`), HeatmapPage
    (`map`), MarketPage (`byEvent`) and TopGamesPage (`byEvent`): group the
    sales by `event_id ?? "unknown"`, in first-appearance order. -/
def rollupByEvent (sales : List Sale) : List (String × List Sale) :=
  sales.foldl (fun gs s => addToGroup gs (eventKey s) s) []

/-- Revenue of one rollup group. -/
def groupRevenue (g : String × List Sale) : ℚ := totalRevenue g.2

/-- Summed revenue over all groups of a rollup. -/
def rollupRevenue (gs : List (String × List Sale)) : ℚ :=
  (gs.map groupRevenue).sum

lemma rollupRevenue_addToGroup (gs : List (String × List Sale)) (k : String)
    (s : Sale) :
    rollupRevenue (addToGroup gs k s) = rollupRevenue gs + saleRevenue s := by
  induction gs with
  | nil => simp [addToGroup, rollupRevenue, groupRevenue, totalRevenue]
  | cons g rest ih =>
      obtain ⟨k', l⟩ := g
      by_cases hk : k' = k
      · simp [addToGroup, hk, rollupRevenue, groupRevenue, totalRevenue]
        ring
      · simp only [addToGroup, if_neg hk, rollupRevenue, groupRevenue,
          List.map_cons, List.sum_cons] at *
        rw [ih]
        ring

lemma rollupRevenue_foldl (sales : List Sale)
    (gs : List (String × List Sale)) :
    rollupRevenue (sales.foldl (fun a s => addToGroup a (eventKey s) s) gs) =
      rollupRevenue gs + totalRevenue sales := by
  induction sales generalizing gs with
  | nil => simp [totalRevenue]
  | cons s rest ih =>
      simp only [List.foldl_cons, totalRevenue, List.map_cons, List.sum_cons]
      rw [ih, rollupRevenue_addToGroup]
      simp [totalRevenue]
      ring

/-- C1: the per-event rollup (grouping by `event_id ?? "unknown"`, the
    sentinel group included) conserves total revenue: the sum over all
    groups of the group revenue equals `Σ ticket_price × quantity` over the
    input list — no sale's contribution is lost or double-counted. -/
theorem rollup_revenue_conserved (sales : List Sale) :
    rollupRevenue (rollupByEvent sales) =
      (sales.map (fun s => s.ticket_price * (s.quantity : ℚ))).sum := by
  have h := rollupRevenue_foldl sales []
  simp only [rollupByEvent] at *
  rw [h]
  simp only [rollupRevenue, List.map_nil, List.sum_nil, zero_add]
  rfl

/-! ## Percent change (RiskPage / MarketPage `pct`) -/

/-- `pct` as defined identically in RiskPage and MarketPage:
    `if (prev === 0) return curr > 0 ? 100 : 0; return ((curr - prev) / prev) * 100`. -/
def pct (curr prev : ℚ) : ℚ :=
  if prev = 0 then (if curr > 0 then 100 else 0)
  else (curr - prev) / prev * 100

/-- `percentChange` as the spec words it (§4.2):
    `prev==0 ? (curr>0 ? 100 : 0) : (curr-prev)/prev × 100`. -/
def percentChangeSpec (curr prev : ℚ) : ℚ :=
  if prev = 0 then (if 0 < curr then 100 else 0) else (curr - prev) / prev * 100

/-- C2: for non-negative inputs, `pct` computes exactly the spec's
    `percentChange` formula: `curr > 0 ? 100 : 0` on a zero baseline, and
    `(curr−prev)/prev × 100` otherwise (the multiplied-out form witnesses
    that the division really is by the nonzero `prev`, so the result is an
    ordinary rational — never a NaN/Infinity-producing division by zero). -/
theorem pct_matches_percentChange (curr prev : ℚ) (hc : 0 ≤ curr)
    (hp : 0 ≤ prev) :
    pct curr prev = percentChangeSpec curr prev ∧
      pct curr 0 = (if 0 < curr then 100 else 0) ∧
      (prev = 0 ∨ pct curr prev * prev = (curr - prev) * 100) := by
  refine ⟨rfl, by simp [pct], ?_⟩
  by_cases h : prev = 0
  · exact Or.inl h
  · right
    simp only [pct, if_neg h]
    field_simp

/-- Witness: the C2 theorem evaluated at `curr = 3`, `prev = 2`. -/
theorem pct_matches_percentChange_witness :
    pct 3 2 = percentChangeSpec 3 2 ∧
      pct 3 0 = (if (0 : ℚ) < 3 then 100 else 0) ∧
      ((2 : ℚ) = 0 ∨ pct 3 2 * 2 = (3 - 2) * 100) :=
  pct_matches_percentChange 3 2 (by norm_num) (by norm_num)

/-! ## Risk classification (RiskPage lines 98–101) -/

/-- The four outcomes of RiskPage's classification: the three `RiskLevel`
    badge values plus `healthy` (the event is pushed to `safeGames`). -/
inductive RiskBucket where
  | high
  | medium
  | watch
  | healthy
  deriving DecidableEq

/-- RiskPage lines 98–101:
    `if (riskScore >= 4) … "high" … else if (riskScore >= 2) … "medium" …
     else if (riskScore >= 1) … "watch" … else safeGames.push(…)`. -/
def classifyRisk (score : ℕ) : RiskBucket :=
  if 4 ≤ score then .high
  else if 2 ≤ score then .medium
  else if 1 ≤ score then .watch
  else .healthy

/-- C3: the classification maps every non-negative integer score to exactly
    one bucket — `high` iff score ≥ 4, `medium` iff score ∈ {2,3},
    `watch` iff score = 1, `healthy` iff score = 0 — so the four buckets
    partition the scores with no gaps or overlaps. -/
theorem risk_classification_partition (score : ℕ) :
    (classifyRisk score = .high ↔ 4 ≤ score) ∧
      (classifyRisk score = .medium ↔ score = 2 ∨ score = 3) ∧
      (classifyRisk score = .watch ↔ score = 1) ∧
      (classifyRisk score = .healthy ↔ score = 0) := by
  unfold classifyRisk
  split_ifs with h1 h2 h3 <;> simp_all <;> omega

/-! ## Risk scoring rules (RiskPage lines 77–96)

The rules consume only the per-event aggregates `units_7d`,
`units_prev7d`, `avg_price_7d`, `avg_price_prev7d`, `revenue` and the
optional event date, so they are embedded as functions of those values. -/

/-- `Math.ceil((new Date(event_date).getTime() - now.getTime()) / 86400000)`,
    on abstract millisecond timestamps. -/
def daysToEvent (event_date now : Int) : Int :=
  ⌈((event_date - now : Int) : ℚ) / 86400000⌉

/-- Units-drop rule pair (lines 77, 83–84):
    `salesDrop = units_prev7d > 0 ? pct(units_7d, units_prev7d) : 0`;
    `salesDrop < -30 && units_prev7d > 0` → +3, else
    `salesDrop < -15 && units_prev7d > 0` → +1. -/
def dropScore (units7 unitsPrev : ℕ) : ℕ :=
  let salesDrop : ℚ := if 0 < unitsPrev then pct units7 unitsPrev else 0
  if salesDrop < -30 ∧ 0 < unitsPrev then 3
  else if salesDrop < -15 ∧ 0 < unitsPrev then 1
  else 0

/-- Price-drop rule (lines 78, 86):
    `priceDrop = avg_price_prev7d > 0 ? pct(avg_price_7d, avg_price_prev7d) : 0`;
    `priceDrop < -10 && avg_price_prev7d > 0` → +2. -/
def priceScore (avg7 avgPrev : ℚ) : ℕ :=
  let priceDrop : ℚ := if 0 < avgPrev then pct avg7 avgPrev else 0
  if priceDrop < -10 ∧ 0 < avgPrev then 2 else 0

/-- Stalled-listing rule (line 88): `units_7d === 0 && revenue > 0` → +2. -/
def stalledScore (units7 : ℕ) (revenue : ℚ) : ℕ :=
  if units7 = 0 ∧ 0 < revenue then 2 else 0

/-- Imminent-event rule (lines 90–96): when an event date is present and
    `0 < daysToEvent ≤ 14 && units_7d < 2` → +3. -/
def eventSoonScore (event_date : Option Int) (now : Int) (units7 : ℕ) : ℕ :=
  match event_date with
  | none => 0
  | some ed =>
      let d := daysToEvent ed now
      if 0 < d ∧ d ≤ 14 ∧ units7 < 2 then 3 else 0

/-- The accumulated `riskScore` of RiskPage lines 77–96. -/
def riskScore (units7 unitsPrev : ℕ) (avg7 avgPrev revenue : ℚ)
    (event_date : Option Int) (now : Int) : ℕ :=
  dropScore units7 unitsPrev + priceScore avg7 avgPrev +
    stalledScore units7 revenue + eventSoonScore event_date now units7

/-- C4: for an event with prior-7-day units 10, recent-7-day units 6 (a 40%
    drop) and average price 100 in both windows, only the >30%-drop rule
    fires (+3) — the price, stalled and imminent-event rules contribute 0
    whatever the revenue and event date are, since recent units are 6 —
    so the total score is exactly 3 and the event is classified medium. -/
theorem scenario_forty_percent_drop (revenue : ℚ) (event_date : Option Int)
    (now : Int) :
    dropScore 6 10 = 3 ∧ priceScore 100 100 = 0 ∧
      stalledScore 6 revenue = 0 ∧ eventSoonScore event_date now 6 = 0 ∧
      riskScore 6 10 100 100 revenue event_date now = 3 ∧
      classifyRisk (riskScore 6 10 100 100 revenue event_date now) =
        .medium := by
  have hdrop : dropScore 6 10 = 3 := by norm_num [dropScore, pct]
  have hprice : priceScore 100 100 = 0 := by norm_num [priceScore, pct]
  have hstall : stalledScore 6 revenue = 0 := by simp [stalledScore]
  have hsoon : eventSoonScore event_date now 6 = 0 := by
    cases event_date with
    | none => rfl
    | some ed => simp [eventSoonScore]
  have hscore : riskScore 6 10 100 100 revenue event_date now = 3 := by
    simp [riskScore, hdrop, hprice, hstall, hsoon]
  exact ⟨hdrop, hprice, hstall, hsoon, hscore, by rw [hscore]; rfl⟩

/-! ## Membership of sales in the per-event rollup -/

lemma addToGroup_mem_new (gs : List (String × List Sale)) (k : String)
    (s : Sale) : ∃ g ∈ addToGroup gs k s, g.1 = k ∧ s ∈ g.2 := by
  induction gs with
  | nil => exact ⟨(k, [s]), by simp [addToGroup]⟩
  | cons g rest ih =>
      obtain ⟨k', l⟩ := g
      by_cases hk : k' = k
      · exact ⟨(k', l ++ [s]), by simp [addToGroup, hk]⟩
      · obtain ⟨g', hg', hk', hs'⟩ := ih
        exact ⟨g', by simp [addToGroup, hk, hg'], hk', hs'⟩

lemma addToGroup_mem_old (gs : List (String × List Sale)) (k : String)
    (t : Sale) (g : String × List Sale) (hg : g ∈ gs) (s : Sale)
    (hs : s ∈ g.2) :
    ∃ g' ∈ addToGroup gs k t, g'.1 = g.1 ∧ s ∈ g'.2 := by
  induction gs with
  | nil => cases hg
  | cons g₀ rest ih =>
      obtain ⟨k', l⟩ := g₀
      rcases List.mem_cons.1 hg with h | h
      · subst h
        by_cases hk : k' = k
        · exact ⟨(k', l ++ [t]), by simp [addToGroup, hk],
            rfl, by simp [List.mem_append]; exact Or.inl hs⟩
        · exact ⟨(k', l), by simp [addToGroup, hk], rfl, hs⟩
      · by_cases hk : k' = k
        · exact ⟨g, by simp [addToGroup, hk, h], rfl, hs⟩
        · obtain ⟨g', hg', h1, h2⟩ := ih h
          exact ⟨g', by simp [addToGroup, hk]; exact Or.inr hg', h1, h2⟩

lemma foldl_group_mem_old (sales : List Sale)
    (gs : List (String × List Sale)) (g : String × List Sale) (hg : g ∈ gs)
    (s : Sale) (hs : s ∈ g.2) :
    ∃ g' ∈ sales.foldl (fun a t => addToGroup a (eventKey t) t) gs,
      g'.1 = g.1 ∧ s ∈ g'.2 := by
  induction sales generalizing gs g with
  | nil => exact ⟨g, hg, rfl, hs⟩
  | cons t rest ih =>
      obtain ⟨g', hg', h1, h2⟩ := addToGroup_mem_old gs (eventKey t) t g hg s hs
      obtain ⟨g'', hg'', h1', h2'⟩ := ih _ g' hg' h2
      exact ⟨g'', hg'', h1'.trans h1, h2'⟩

lemma foldl_group_mem (sales : List Sale) (gs : List (String × List Sale))
    (s : Sale) (hs : s ∈ sales) :
    ∃ g ∈ sales.foldl (fun a t => addToGroup a (eventKey t) t) gs,
      g.1 = eventKey s ∧ s ∈ g.2 := by
  induction sales generalizing gs with
  | nil => cases hs
  | cons t rest ih =>
      rcases List.mem_cons.1 hs with h | h
      · subst h
        obtain ⟨g, hg, h1, h2⟩ := addToGroup_mem_new gs (eventKey s) s
        obtain ⟨g', hg', h1', h2'⟩ := foldl_group_mem_old rest _ g hg s h2
        exact ⟨g', hg', h1'.trans h1, h2'⟩
      · exact ih _ h

/-! ## MarketPage `eventStats` (part_011 lines 369–410) -/

/-- Recent-window filter: `new Date(s.sold_at) >= start7d`. -/
def winRecent (start7d : Int) (l : List Sale) : List Sale :=
  l.filter (fun s => start7d ≤ s.sold_at)

/-- Prior-window filter: `d >= start14d && d < start7d`. -/
def winPrior (start7d start14d : Int) (l : List Sale) : List Sale :=
  l.filter (fun s => start14d ≤ s.sold_at ∧ s.sold_at < start7d)

/-- The guarded average price used, with identical arithmetic, for the
    7-day/prior-7-day/all-time windows in RiskPage, HeatmapPage and
    MarketPage: `units > 0 ? Σ price×qty / units : 0`. -/
def avgPrice (l : List Sale) : ℚ :=
  if 0 < totalUnits l then totalRevenue l / totalUnits l else 0

/-- Sort a copy descending by `sold_at`
    (`[...sales].sort((a, b) => new Date(b.sold_at) - new Date(a.sold_at))`),
    modelled by insertion. -/
def insertDesc (s : Sale) : List Sale → List Sale
  | [] => [s]
  | t :: rest =>
      if t.sold_at < s.sold_at then s :: t :: rest else t :: insertDesc s rest

def sortBySoldAtDesc (l : List Sale) : List Sale := l.foldr insertDesc []

/-- One row of MarketPage's per-event stats table (part_011 `EventStats`). -/
structure EventStats where
  id : String
  name : String
  event_date : Option Int
  units_7d : ℕ
  units_prev7d : ℕ
  revenue_total : ℚ
  avg_price : ℚ
  avg_price_7d : ℚ
  avg_price_prev7d : ℚ
  sales_7d : ℕ
  sales_prev7d : ℕ
  all_sales : List Sale
  deriving DecidableEq

/-- The body of part_011's `Object.entries(byEvent).map(([id, sales]) => …)`:
    `first = sales[0]`, `name = first.events?.name ?? "Unknown"`. -/
def mkEventStats (start7d start14d : Int) (g : String × List Sale) :
    EventStats :=
  let sales := g.2
  let firstName : String :=
    match sales with
    | [] => "Unknown"
    | s :: _ => (s.events.map (fun e => e.name)).getD "Unknown"
  let firstDate : Option Int :=
    match sales with
    | [] => none
    | s :: _ => s.events.bind (fun e => e.event_date)
  { id := g.1
    name := firstName
    event_date := firstDate
    units_7d := totalUnits (winRecent start7d sales)
    units_prev7d := totalUnits (winPrior start7d start14d sales)
    revenue_total := totalRevenue sales
    avg_price := avgPrice sales
    avg_price_7d := avgPrice (winRecent start7d sales)
    avg_price_prev7d := avgPrice (winPrior start7d start14d sales)
    sales_7d := (winRecent start7d sales).length
    sales_prev7d := (winPrior start7d start14d sales).length
    all_sales := sortBySoldAtDesc sales }

/-- MarketPage's per-event rollup (part_011 lines 369–410): group by
    `event_id ?? "unknown"`, build the stats, then
    `.filter((e) => e.name !== "Unknown")`. -/
def eventStats (start7d start14d : Int) (sales : List Sale) :
    List EventStats :=
  ((rollupByEvent sales).map (mkEventStats start7d start14d)).filter
    (fun e => e.name ≠ "Unknown")

/-- C6 counterexample: a sale with no `event_id` (and hence no joined
    event) is grouped under `"unknown"`, the derived group name is
    `"Unknown"`, and MarketPage's final filter drops the whole group —
    `eventStats` on a list containing only that sale is empty, so the
    unattached sale silently disappears from that aggregation. -/
theorem eventStats_drops_unattached_sales :
    (⟨none, none, 0, 100, 2⟩ : Sale).event_id = none ∧
      eventStats (-7) (-14) [⟨none, none, 0, 100, 2⟩] = [] := by
  exact ⟨rfl, rfl⟩

/-- C6 amended: in the groupings actually shared by RiskPage, HeatmapPage,
    MarketPage and TopGamesPage, every sale without an `event_id` lands in
    the single sentinel group keyed `"unknown"`; it is MarketPage's
    subsequent name filter (see the counterexample) that discards that
    group, not the grouping itself. -/
theorem unattached_sales_grouped (sales : List Sale) (s : Sale)
    (hs : s ∈ sales) (hid : s.event_id = none) :
    ∃ g ∈ rollupByEvent sales, g.1 = "unknown" ∧ s ∈ g.2 := by
  have h := foldl_group_mem sales [] s hs
  simpa [rollupByEvent, eventKey, hid] using h

/-- Witness: the C6 amended theorem at a concrete one-sale list. -/
theorem unattached_sales_grouped_witness :
    ∃ g ∈ rollupByEvent [(⟨none, none, 0, 100, 2⟩ : Sale)],
      g.1 = "unknown" ∧ (⟨none, none, 0, 100, 2⟩ : Sale) ∈ g.2 :=
  unattached_sales_grouped _ _ (by simp) rfl

/-! ## Daily time-series bucketing

`sold_day` is the sale's local calendar day index — the value of
`startOfDay(new Date(s.sold_at))` — abstracting the date-time conversion
and the `"dd MMM"` label formatting. -/

/-- Sale as consumed by the dashboard chart (Index.tsx `fetchData`). -/
structure DSale where
  sold_day : Int
  ticket_price : ℚ
  quantity : ℕ
  deriving DecidableEq

/-- One point of the dashboard's 30-day revenue chart
    (Index.tsx `ChartPoint { date, revenue, count }`). -/
structure ChartPoint where
  day : Int
  revenue : ℚ
  count : ℕ
  deriving DecidableEq

/-- Index.tsx lines 72–84: `for (let i = 29; i >= 0; i--)` push the entry
    for `day = startOfDay(subDays(now, i))`, with the revenue over the
    sales of that local day and `count = daySales.length`.  `today` is the
    local day of `now`; the produced days are `today-29 … today`. -/
def indexChart (sales : List DSale) (today : Int) : List ChartPoint :=
  (List.range 30).map (fun (j : ℕ) =>
    let day : Int := today - 29 + (j : Int)
    let daySales := sales.filter (fun s => s.sold_day = day)
    { day := day
      revenue := (daySales.map (fun s => s.ticket_price * (s.quantity : ℚ))).sum
      count := daySales.length })

/-- Sale as consumed by AnalyticsPage's time series: `revenue` and
    `gross_profit` are precomputed per row in `fetchData`. -/
structure ASale where
  sold_day : Int
  revenue : ℚ
  gross_profit : ℚ
  quantity : ℕ
  deriving DecidableEq

/-- One entry of AnalyticsPage's `timeSeriesData`. -/
structure SeriesPoint where
  day : Int
  revenue : ℚ
  gross_profit : ℚ
  quantity : ℕ
  deriving DecidableEq

/-- Accumulate one sale into the `byDay` object of AnalyticsPage lines
    216–224: a new day key is appended (JS insertion order), an existing
    one accumulated into. -/
def addSeries (gs : List SeriesPoint) (s : ASale) : List SeriesPoint :=
  match gs with
  | [] => [⟨s.sold_day, s.revenue, s.gross_profit, s.quantity⟩]
  | p :: rest =>
      if p.day = s.sold_day then
        ⟨p.day, p.revenue + s.revenue, p.gross_profit + s.gross_profit,
          p.quantity + s.quantity⟩ :: rest
      else p :: addSeries rest s

/-- AnalyticsPage lines 216–224: group the filtered sales by calendar day;
    only days that occur in the input ever get an entry. -/
def timeSeriesData (filtered : List ASale) : List SeriesPoint :=
  filtered.foldl addSeries []

/-- C5 counterexample: two sales on days 0 and 2.  `timeSeriesData`
    produces 2 entries, not `daysBetween(0,2) + 1 = 3`; the empty day 1 is
    omitted instead of appearing zero-filled. -/
theorem timeSeriesData_omits_empty_days :
    timeSeriesData [⟨0, 100, 0, 1⟩, ⟨2, 50, 0, 1⟩] =
        [⟨0, 100, 0, 1⟩, ⟨2, 50, 0, 1⟩] ∧
      (timeSeriesData [⟨0, 100, 0, 1⟩, ⟨2, 50, 0, 1⟩]).length = 2 ∧
      (2 : ℤ) - 0 + 1 = 3 ∧
      ∀ p ∈ timeSeriesData [⟨0, 100, 0, 1⟩, ⟨2, 50, 0, 1⟩], p.day ≠ 1 := by
  refine ⟨rfl, rfl, rfl, ?_⟩
  decide

/-- C5 amended: the dashboard's 30-day chart (Index.tsx) does bucket its
    fixed range `[today−29, today]` into exactly 30 entries — one per
    calendar day, in chronological order, strictly increasing by one day —
    and a day with no matching sale appears with revenue 0 and sale count 0
    rather than being omitted.  (AnalyticsPage's `timeSeriesData` instead
    emits only the days that occur in the input — see the
    counterexample.) -/
theorem indexChart_buckets_by_day (sales : List DSale) (today : Int) :
    (indexChart sales today).map ChartPoint.day =
        (List.range 30).map (fun (j : ℕ) => today - 29 + (j : Int)) ∧
      (indexChart sales today).length = 30 ∧
      ∀ p ∈ indexChart sales today,
        (∀ s ∈ sales, s.sold_day ≠ p.day) → p.revenue = 0 ∧ p.count = 0 := by
  refine ⟨by simp [indexChart],
    by simp only [indexChart, List.length_map, List.length_range], ?_⟩
  intro p hp hnone
  simp only [indexChart, List.mem_map, List.mem_range] at hp
  obtain ⟨j, _, rfl⟩ := hp
  have hfil : sales.filter (fun s => s.sold_day = today - 29 + j) = [] := by
    apply List.filter_eq_nil_iff.2
    intro s hs
    simpa using hnone s hs
  simp [hfil]

/-- Witness: the C5 amended theorem evaluated on the empty sale list at
    `today = 0`; the inner zero-fill implication is discharged on the
    chart's first point. -/
theorem indexChart_buckets_by_day_witness :
    (indexChart [] 0).length = 30 ∧
      ∀ p ∈ indexChart ([] : List DSale) 0, p.revenue = 0 ∧ p.count = 0 := by
  have h := indexChart_buckets_by_day [] 0
  exact ⟨h.2.1, fun p hp => h.2.2 p hp (by simp)⟩

/-! ## Average price (C7) -/

/-- Index.tsx lines 64–67: the dashboard's "Avg Ticket Price" —
    `totalSales > 0 ? totalRevenue / totalSales : 0` where
    `totalSales = sales.length` is the number of sale records. -/
def summaryAvgPrice (sales : List Sale) : ℚ :=
  if 0 < sales.length then totalRevenue sales / sales.length else 0

/-- C7 counterexample: one sale of 2 tickets at price 100.  The dashboard's
    "Avg Ticket Price" is `200` (revenue divided by the **number of sale
    records**), while revenue divided by total units is `100` — so not
    every average-price computation equals revenue / units. -/
theorem summaryAvgPrice_not_revenue_per_unit :
    summaryAvgPrice [⟨none, none, 0, 100, 2⟩] = 200 ∧
      totalRevenue [⟨none, none, 0, 100, 2⟩] /
          (totalUnits [⟨none, none, 0, 100, 2⟩] : ℚ) = 100 ∧
      (200 : ℚ) ≠ 100 := by
  refine ⟨?_, ?_, by norm_num⟩ <;>
    norm_num [summaryAvgPrice, totalRevenue, totalUnits, saleRevenue]

/-- C7 amended: the per-window average price shared by RiskPage,
    HeatmapPage and MarketPage equals revenue/units when units > 0 and 0
    when units = 0; the dashboard's "Avg Ticket Price" (Index.tsx) instead
    divides total revenue by the number of sale records, guarded the same
    way.  Neither computation ever divides by zero: each is either the
    guarded 0 or satisfies the multiplied-out division law. -/
theorem avg_price_guarded (sales : List Sale) :
    ((totalUnits sales = 0 ∧ avgPrice sales = 0) ∨
        avgPrice sales * totalUnits sales = totalRevenue sales) ∧
      ((sales = [] ∧ summaryAvgPrice sales = 0) ∨
        summaryAvgPrice sales * sales.length = totalRevenue sales) := by
  constructor
  · by_cases h : 0 < totalUnits sales
    · right
      rw [avgPrice, if_pos h]
      have : (totalUnits sales : ℚ) ≠ 0 := by
        exact_mod_cast Nat.pos_iff_ne_zero.1 h
      field_simp
    · left
      have h0 : totalUnits sales = 0 := by omega
      exact ⟨h0, by rw [avgPrice, if_neg h]⟩
  · cases sales with
    | nil => left; exact ⟨rfl, by rw [summaryAvgPrice]; rfl⟩
    | cons s rest =>
        right
        rw [summaryAvgPrice, if_pos (by simp)]
        have : ((s :: rest).length : ℚ) ≠ 0 :=
          Nat.cast_ne_zero.mpr (by simp)
        field_simp

/-! ## CSV import/export (AddSalePage, SalesPage)

Strings are modelled as `List Char` so that splitting, trimming and
number parsing can be reasoned about character by character. -/

/-- Character-list model of a JS string. -/
abbrev Str := List Char

/-- The decimal digit character for `d < 10`. -/
def digCh (d : ℕ) : Char := Char.ofNat (48 + d)

lemma digCh_isDigit {d : ℕ} (h : d < 10) : (digCh d).isDigit = true := by
  interval_cases d <;> decide

lemma digCh_val {d : ℕ} (h : d < 10) : (digCh d).toNat - 48 = d := by
  interval_cases d <;> decide

lemma digCh_not_special {d : ℕ} (h : d < 10) :
    digCh d ≠ ',' ∧ digCh d ≠ '\n' ∧ digCh d ≠ '"' ∧
      (digCh d).isWhitespace = false := by
  interval_cases d <;> decide

/-- Decimal rendering of a non-negative integer, most significant digit
    first — the JS rendering of an integer interpolated into a CSV cell.
    Structural fuel recursion (`fuel > n` suffices) keeps it
    kernel-reducible. -/
def natToStrAux : ℕ → ℕ → Str
  | 0, _ => []
  | fuel + 1, n =>
      if n < 10 then [digCh n]
      else natToStrAux fuel (n / 10) ++ [digCh (n % 10)]

def natToStr (n : ℕ) : Str := natToStrAux (n + 1) n

lemma natToStrAux_irrel (f₁ : ℕ) :
    ∀ f₂ n, n < f₁ → n < f₂ → natToStrAux f₁ n = natToStrAux f₂ n := by
  induction f₁ with
  | zero => intro f₂ n h; omega
  | succ f ih =>
      intro f₂ n h1 h2
      cases f₂ with
      | zero => omega
      | succ f' =>
          by_cases h10 : n < 10
          · simp [natToStrAux, h10]
          · have hdiv : n / 10 < n := Nat.div_lt_self (by omega) (by norm_num)
            have hd : n / 10 < f := by omega
            have hd' : n / 10 < f' := by omega
            simp only [natToStrAux, if_neg h10]
            rw [ih f' (n / 10) hd hd']

/-- The defining recurrence of `natToStr`. -/
lemma natToStr_eq (n : ℕ) :
    natToStr n = if n < 10 then [digCh n]
      else natToStr (n / 10) ++ [digCh (n % 10)] := by
  by_cases h : n < 10
  · simp [natToStr, natToStrAux, h]
  · have h1 : natToStr n = natToStrAux n (n / 10) ++ [digCh (n % 10)] := by
      simp only [natToStr, natToStrAux, if_neg h]
    have hlt : n / 10 < n := Nat.div_lt_self (by omega) (by norm_num)
    rw [h1, natToStrAux_irrel n (n / 10 + 1) (n / 10) hlt (by omega),
      if_neg h]
    rfl

lemma natToStr_ne_nil (n : ℕ) : natToStr n ≠ [] := by
  rw [natToStr_eq]
  split_ifs <;> simp

lemma natToStr_all_digits (n : ℕ) : ∀ c ∈ natToStr n, c.isDigit = true := by
  induction n using Nat.strong_induction_on with
  | _ n ih =>
      rw [natToStr_eq]
      by_cases h : n < 10
      · simpa [h] using digCh_isDigit h
      · simp only [if_neg h, List.mem_append, List.mem_singleton]
        rintro c (hc | rfl)
        · exact ih (n / 10) (by omega) c hc
        · exact digCh_isDigit (Nat.mod_lt _ (by norm_num))

/-- One step of JS digit accumulation. -/
def digStep (a : ℕ) (c : Char) : ℕ := a * 10 + (c.toNat - 48)

lemma natToStr_foldl (n : ℕ) : ∀ acc : ℕ,
    (natToStr n).foldl digStep acc =
      acc * 10 ^ (natToStr n).length + n := by
  induction n using Nat.strong_induction_on with
  | _ n ih =>
      intro acc
      rw [natToStr_eq]
      by_cases h : n < 10
      · simp [h, digStep, digCh_val h]
      · have hm : n % 10 < 10 := Nat.mod_lt _ (by norm_num)
        simp only [if_neg h, List.foldl_append, List.foldl_cons,
          List.foldl_nil, List.length_append, List.length_singleton]
        rw [ih (n / 10) (by omega) acc]
        simp only [digStep, digCh_val hm]
        have : n = 10 * (n / 10) + n % 10 := (Nat.div_add_mod n 10).symm ▸ by
          omega
        rw [pow_succ]
        nlinarith [Nat.div_add_mod n 10]

/-- Greedy decimal-prefix scan: accumulated value, number of digits
    consumed, and the unconsumed remainder. -/
def parseDigitsCnt : Str → ℕ → ℕ → ℕ × ℕ × Str
  | [], acc, k => (acc, k, [])
  | c :: cs, acc, k =>
      if c.isDigit then parseDigitsCnt cs (digStep acc c) (k + 1)
      else (acc, k, c :: cs)

lemma parseDigitsCnt_digits (s : Str) :
    ∀ t acc k, (∀ c ∈ s, c.isDigit = true) →
      parseDigitsCnt (s ++ t) acc k =
        parseDigitsCnt t (s.foldl digStep acc) (k + s.length) := by
  induction s with
  | nil => intro t acc k _; simp
  | cons c cs ih =>
      intro t acc k h
      have hc : c.isDigit = true := h c (by simp)
      simp only [List.cons_append, parseDigitsCnt, hc, if_pos,
        List.append_eq]
      rw [ih t (digStep acc c) (k + 1) (fun x hx => h x (by simp [hx]))]
      simp only [List.foldl_cons, List.length_cons]
      congr 1
      omega

lemma parseDigitsCnt_natToStr (n : ℕ) (t : Str) :
    parseDigitsCnt (natToStr n ++ t) 0 0 =
      parseDigitsCnt t n (natToStr n).length := by
  rw [parseDigitsCnt_digits (natToStr n) t 0 0 (natToStr_all_digits n),
    natToStr_foldl]
  simp

lemma parseDigitsCnt_stop (t : Str)
    (h : ∀ c cs, t = c :: cs → c.isDigit = false) (v k : ℕ) :
    parseDigitsCnt t v k = (v, k, t) := by
  cases t with
  | nil => rfl
  | cons c cs => simp [parseDigitsCnt, h c cs rfl]

/-- Model of JS `parseInt(cell)` for the already-trimmed CSV cells fed to
    it: an optional sign, then the longest decimal-digit prefix; `NaN`
    (here `none`) when no digit follows. -/
def jsParseInt (l : Str) : Option Int :=
  match l with
  | [] => none
  | c :: rest =>
      if c = '-' then
        match parseDigitsCnt rest 0 0 with
        | (v, k, _) => if k = 0 then none else some (-(v : Int))
      else if c = '+' then
        match parseDigitsCnt rest 0 0 with
        | (v, k, _) => if k = 0 then none else some (v : Int)
      else
        match parseDigitsCnt l 0 0 with
        | (v, k, _) => if k = 0 then none else some (v : Int)

lemma jsParseInt_natToStr (n : ℕ) : jsParseInt (natToStr n) = some n := by
  obtain ⟨c, cs, hcs⟩ : ∃ c cs, natToStr n = c :: cs := by
    cases h : natToStr n with
    | nil => exact absurd h (natToStr_ne_nil n)
    | cons c cs => exact ⟨c, cs, rfl⟩
  have hdig : c.isDigit = true := natToStr_all_digits n c (by simp [hcs])
  have hc1 : c ≠ '-' := by rintro rfl; simp at hdig
  have hc2 : c ≠ '+' := by rintro rfl; simp at hdig
  have hparse : parseDigitsCnt (natToStr n) 0 0 =
      (n, (natToStr n).length, []) := by
    have := parseDigitsCnt_natToStr n []
    simpa [parseDigitsCnt] using this
  have hlen : (natToStr n).length ≠ 0 := by
    simp [hcs]
  rw [jsParseInt.eq_def, hcs]
  simp only [if_neg hc1, if_neg hc2]
  rw [← hcs, hparse]
  simp [hlen]

/-- Unsigned part of JS `parseFloat`: integer digits, then an optional
    `'.'` and fraction digits; `NaN` (none) when neither part has a
    digit.  (Exponent syntax never occurs in this data.) -/
def jsParseFloatCore (l : Str) : Option ℚ :=
  match parseDigitsCnt l 0 0 with
  | (ip, ni, r) =>
      match r with
      | c :: fr =>
          if c = '.' then
            match parseDigitsCnt fr 0 0 with
            | (fp, nf, _) =>
                if ni + nf = 0 then none
                else some ((ip : ℚ) + (fp : ℚ) / (10 : ℚ) ^ nf)
          else if ni = 0 then none else some (ip : ℚ)
      | [] => if ni = 0 then none else some (ip : ℚ)

/-- Model of JS `parseFloat(cell)` on the already-trimmed CSV cells fed to
    it: optional sign, then the decimal syntax of `jsParseFloatCore`. -/
def jsParseFloat (l : Str) : Option ℚ :=
  match l with
  | [] => none
  | c :: rest =>
      if c = '-' then (jsParseFloatCore rest).map (fun q => -q)
      else if c = '+' then jsParseFloatCore rest
      else jsParseFloatCore l

/-- The JS rendering of the non-negative two-decimal currency amounts the
    dashboard stores: trailing zero decimals are not printed
    (`125` → `"125"`, `125.5` → `"125.5"`, `125.25` → `"125.25"`).
    The cent value `p × 100` is computed on the numerator/denominator so
    the definition evaluates by pure integer arithmetic. -/
def priceToStr (p : ℚ) : Str :=
  let c : ℕ := (p.num * 100 / (p.den : Int)).toNat
  let ip := c / 100
  let fr := c % 100
  if fr = 0 then natToStr ip
  else if fr % 10 = 0 then natToStr ip ++ ['.', digCh (fr / 10)]
  else natToStr ip ++ ['.', digCh (fr / 10), digCh (fr % 10)]

lemma parseDigitsCnt_one_digit {d : ℕ} (h : d < 10) (a k : ℕ) :
    parseDigitsCnt [digCh d] a k = (a * 10 + d, k + 1, []) := by
  simp [parseDigitsCnt, digCh_isDigit h, digStep, digCh_val h]

lemma parseDigitsCnt_two_digits {d₁ d₂ : ℕ} (h₁ : d₁ < 10) (h₂ : d₂ < 10)
    (a k : ℕ) :
    parseDigitsCnt [digCh d₁, digCh d₂] a k =
      ((a * 10 + d₁) * 10 + d₂, k + 2, []) := by
  simp only [parseDigitsCnt, digCh_isDigit h₁, digCh_isDigit h₂, if_pos,
    digStep, digCh_val h₁, digCh_val h₂]

lemma jsParseFloatCore_natToStr_tail (n : ℕ) (t : Str)
    (h : ∀ c cs, t = c :: cs → c.isDigit = false) :
    parseDigitsCnt (natToStr n ++ t) 0 0 =
      (n, (natToStr n).length, t) := by
  rw [parseDigitsCnt_natToStr, parseDigitsCnt_stop t h]

lemma natToStr_length_ne_zero (n : ℕ) : (natToStr n).length ≠ 0 := by
  cases h : natToStr n with
  | nil => exact absurd h (natToStr_ne_nil n)
  | cons a b => simp [h]

lemma jsParseFloatCore_int (n : ℕ) :
    jsParseFloatCore (natToStr n) = some (n : ℚ) := by
  have hpp := jsParseFloatCore_natToStr_tail n [] (by intro a b hab; cases hab)
  rw [List.append_nil] at hpp
  rw [jsParseFloatCore.eq_def, hpp]
  simp [natToStr_length_ne_zero n]

lemma jsParseFloatCore_frac1 (n d : ℕ) (hd : d < 10) :
    jsParseFloatCore (natToStr n ++ ['.', digCh d]) =
      some ((n : ℚ) + (d : ℚ) / 10) := by
  have hpp := jsParseFloatCore_natToStr_tail n ['.', digCh d]
    (by intro a b hab; cases hab; decide)
  rw [jsParseFloatCore.eq_def, hpp]
  dsimp only
  rw [if_pos rfl, parseDigitsCnt_one_digit hd]
  have := natToStr_length_ne_zero n
  simp only [Nat.zero_mul, Nat.zero_add, pow_one]
  rw [if_neg (by omega)]

lemma jsParseFloatCore_frac2 (n d₁ d₂ : ℕ) (h₁ : d₁ < 10) (h₂ : d₂ < 10) :
    jsParseFloatCore (natToStr n ++ ['.', digCh d₁, digCh d₂]) =
      some ((n : ℚ) + ((d₁ * 10 + d₂ : ℕ) : ℚ) / 100) := by
  have hpp := jsParseFloatCore_natToStr_tail n ['.', digCh d₁, digCh d₂]
    (by intro a b hab; cases hab; decide)
  rw [jsParseFloatCore.eq_def, hpp]
  dsimp only
  rw [if_pos rfl, parseDigitsCnt_two_digits h₁ h₂]
  have := natToStr_length_ne_zero n
  simp only [Nat.zero_mul, Nat.zero_add]
  rw [if_neg (by omega)]
  norm_num

/-- Strings beginning with printed digits never enter the sign branches of
    `jsParseFloat`. -/
lemma jsParseFloat_eq_core (n : ℕ) (t : Str) :
    jsParseFloat (natToStr n ++ t) = jsParseFloatCore (natToStr n ++ t) := by
  obtain ⟨hd, tl, hhd⟩ : ∃ hd tl, natToStr n = hd :: tl := by
    cases h : natToStr n with
    | nil => exact absurd h (natToStr_ne_nil n)
    | cons hd tl => exact ⟨hd, tl, rfl⟩
  have hdig : hd.isDigit = true := natToStr_all_digits n hd (by simp [hhd])
  have hd1 : hd ≠ '-' := by rintro rfl; simp at hdig
  have hd2 : hd ≠ '+' := by rintro rfl; simp at hdig
  rw [hhd, List.cons_append, jsParseFloat.eq_def]
  dsimp only
  rw [if_neg hd1, if_neg hd2, ← List.cons_append, ← hhd]

/-- Parsing inverts printing for the non-negative two-decimal prices:
    `parseFloat` of the printed cell gives back exactly the price. -/
lemma jsParseFloat_priceToStr (p : ℚ) (hp : 0 ≤ p)
    (hden : p.den ∣ 100) : jsParseFloat (priceToStr p) = some p := by
  obtain ⟨k, hk⟩ := hden
  have hk0 : k ≠ 0 := by rintro rfl; simp at hk
  have hdpos : 0 < p.den := p.pos
  have hnum0 : 0 ≤ p.num := Rat.num_nonneg.mpr hp
  obtain ⟨c, hcdef⟩ : ∃ c : ℕ, (p.num * 100 / (p.den : Int)).toNat = c :=
    ⟨_, rfl⟩
  have hkz : (100 : ℤ) = (p.den : ℤ) * k := by exact_mod_cast hk
  have hcval : (c : ℤ) = p.num * k := by
    rw [← hcdef]
    have hdiv : p.num * 100 / (p.den : Int) = p.num * k := by
      rw [hkz, show p.num * ((p.den : ℤ) * (k : ℤ)) =
        p.num * (k : ℤ) * (p.den : ℤ) by ring]
      exact Int.mul_ediv_cancel _ (by exact_mod_cast hdpos.ne')
    rw [hdiv, Int.toNat_of_nonneg
      (mul_nonneg hnum0 (Int.ofNat_nonneg k))]
  have hp100 : p = (c : ℚ) / 100 := by
    have hcq : (c : ℚ) = (p.num : ℚ) * k := by exact_mod_cast hcval
    have hden100 : ((100 : ℚ)) = (p.den : ℚ) * k := by exact_mod_cast hk
    have hkq : (k : ℚ) ≠ 0 := Nat.cast_ne_zero.mpr hk0
    have hdq : ((p.den : ℚ)) ≠ 0 := Nat.cast_ne_zero.mpr (by omega)
    have h5 := Rat.num_div_den p
    rw [div_eq_iff hdq] at h5
    rw [hcq, hden100, eq_div_iff (mul_ne_zero hdq hkq), ← mul_assoc,
      ← h5.symm]
  have hfr : c % 100 < 100 := Nat.mod_lt _ (by norm_num)
  have hfr10 : c % 100 / 10 < 10 := by omega
  have hfrm : c % 100 % 10 < 10 := Nat.mod_lt _ (by norm_num)
  have hstr : priceToStr p =
      (if c % 100 = 0 then natToStr (c / 100)
       else if c % 100 % 10 = 0 then
         natToStr (c / 100) ++ ['.', digCh (c % 100 / 10)]
       else
         natToStr (c / 100) ++
           ['.', digCh (c % 100 / 10), digCh (c % 100 % 10)]) := by
    simp only [priceToStr]
    rw [hcdef]
  by_cases h0 : c % 100 = 0
  · rw [hstr, if_pos h0,
      show natToStr (c / 100) = natToStr (c / 100) ++ ([] : Str) by simp,
      jsParseFloat_eq_core, List.append_nil, jsParseFloatCore_int]
    have hnat : 100 * (c / 100) = c := by omega
    have hq : (100 : ℚ) * ((c / 100 : ℕ) : ℚ) = (c : ℚ) := by
      exact_mod_cast congrArg (fun m : ℕ => (m : ℚ)) hnat
    rw [hp100]
    congr 1
    linarith
  · by_cases h10 : c % 100 % 10 = 0
    · rw [hstr, if_neg h0, if_pos h10, jsParseFloat_eq_core,
        jsParseFloatCore_frac1 _ _ hfr10]
      have hnat : 100 * (c / 100) + 10 * (c % 100 / 10) = c := by omega
      have hq : (100 : ℚ) * ((c / 100 : ℕ) : ℚ) +
          10 * ((c % 100 / 10 : ℕ) : ℚ) = (c : ℚ) := by
        exact_mod_cast congrArg (fun m : ℕ => (m : ℚ)) hnat
      rw [hp100]
      congr 1
      linarith
    · rw [hstr, if_neg h0, if_neg h10, jsParseFloat_eq_core,
        jsParseFloatCore_frac2 _ _ _ hfr10 hfrm]
      have hnat : 100 * (c / 100) + (c % 100 / 10 * 10 + c % 100 % 10) = c := by
        omega
      have hq : (100 : ℚ) * ((c / 100 : ℕ) : ℚ) +
          ((c % 100 / 10 * 10 + c % 100 % 10 : ℕ) : ℚ) = (c : ℚ) := by
        exact_mod_cast congrArg (fun m : ℕ => (m : ℚ)) hnat
      rw [hp100]
      congr 1
      linarith

/-! ## Splitting, joining, trimming, quote stripping -/

/-- `text.split(sep)` for a one-character separator: JS `split` always
    yields at least one (possibly empty) piece. -/
def splitOnCh (sep : Char) : Str → List Str
  | [] => [[]]
  | c :: rest =>
      let r := splitOnCh sep rest
      if c = sep then [] :: r
      else (c :: r.headI) :: r.tail

/-- `pieces.join(sep)` — also the model of `Array.prototype.join`. -/
def joinWith (sep : Char) : List Str → Str
  | [] => []
  | [p] => p
  | p :: ps => p ++ sep :: joinWith sep ps

lemma joinWith_cons_cons (sep : Char) (p q : Str) (ps : List Str) :
    joinWith sep (p :: q :: ps) = p ++ sep :: joinWith sep (q :: ps) := rfl

lemma splitOnCh_no_sep (sep : Char) (p : Str) (h : sep ∉ p) :
    splitOnCh sep p = [p] := by
  induction p with
  | nil => rfl
  | cons c rest ih =>
      have hc : c ≠ sep := by rintro rfl; exact h (by simp)
      have hr : sep ∉ rest := fun hx => h (by simp [hx])
      simp [splitOnCh, hc, ih hr]

lemma splitOnCh_append (sep : Char) (p t : Str) (h : sep ∉ p) :
    splitOnCh sep (p ++ sep :: t) = p :: splitOnCh sep t := by
  induction p with
  | nil => simp [splitOnCh]
  | cons c rest ih =>
      have hc : c ≠ sep := by rintro rfl; exact h (by simp)
      have hr : sep ∉ rest := fun hx => h (by simp [hx])
      simp [splitOnCh, hc, ih hr]

lemma splitOnCh_joinWith (sep : Char) :
    ∀ ps : List Str, ps ≠ [] → (∀ p ∈ ps, sep ∉ p) →
      splitOnCh sep (joinWith sep ps) = ps
  | [], hne, _ => absurd rfl hne
  | [p], _, h => splitOnCh_no_sep sep p (h p (by simp))
  | p :: q :: qs, _, h => by
      rw [joinWith_cons_cons, splitOnCh_append sep p _ (h p (by simp)),
        splitOnCh_joinWith sep (q :: qs) (by simp)
          (fun x hx => h x (by simp [hx]))]

lemma mem_joinWith (sep : Char) :
    ∀ (ps : List Str) (c : Char), c ∈ joinWith sep ps →
      c = sep ∨ ∃ p ∈ ps, c ∈ p
  | [], c, h => by cases h
  | [p], c, h => Or.inr ⟨p, by simp, h⟩
  | p :: q :: qs, c, h => by
      rw [joinWith_cons_cons] at h
      rcases List.mem_append.1 h with h1 | h1
      · exact Or.inr ⟨p, by simp, h1⟩
      · rcases List.mem_cons.1 h1 with h2 | h2
        · exact Or.inl h2
        · rcases mem_joinWith sep (q :: qs) c h2 with h3 | ⟨x, hx, hcx⟩
          · exact Or.inl h3
          · exact Or.inr ⟨x, by simp [List.mem_cons.1 hx], hcx⟩

/-- `text.trim()`: drop leading and trailing whitespace. -/
def trimStr (l : Str) : Str :=
  ((l.dropWhile (fun c => c.isWhitespace)).reverse.dropWhile
    (fun c => c.isWhitespace)).reverse

lemma dropWhile_eq_self_of_head (p : Char → Bool) (l : Str)
    (h : ∀ c, l.head? = some c → p c = false) : l.dropWhile p = l := by
  cases l with
  | nil => rfl
  | cons c rest => simp [List.dropWhile_cons, h c rfl]

lemma trimStr_eq_self (l : Str)
    (h1 : ∀ c, l.head? = some c → c.isWhitespace = false)
    (h2 : ∀ c, l.getLast? = some c → c.isWhitespace = false) :
    trimStr l = l := by
  rw [trimStr, dropWhile_eq_self_of_head _ l h1,
    dropWhile_eq_self_of_head _ l.reverse
      (fun c hc => h2 c (by rwa [List.head?_reverse] at hc)),
    List.reverse_reverse]

/-- `cell.replace(/^"|"$/g, "")`: strip one leading and one trailing
    double quote. -/
def stripQuotes (l : Str) : Str :=
  let l1 := match l with
    | c :: rest => if c = '"' then rest else c :: rest
    | [] => []
  match l1.getLast? with
  | some c => if c = '"' then l1.dropLast else l1
  | none => l1

lemma stripQuotes_eq_self (l : Str) (h : '"' ∉ l) : stripQuotes l = l := by
  cases l with
  | nil => rfl
  | cons c rest =>
      have hc : c ≠ '"' := by rintro rfl; exact h (by simp)
      rw [stripQuotes]
      simp only [if_neg hc]
      cases hl : (c :: rest).getLast? with
      | none => simp at hl
      | some x =>
          have hx : x ≠ '"' := by
            rintro rfl
            obtain ⟨hne, heq⟩ :=
              List.mem_getLast?_eq_getLast (l := c :: rest) (x := '"')
                (by simp [hl])
            exact h (heq ▸ List.getLast_mem hne)
          simp [if_neg hx]

/-! ## Date rendering (`format(date, "yyyy-MM-dd HH:mm")`) and cell
cleanliness -/

/-- Wall-clock fields of a `sold_at` timestamp, as the export formats
    them. -/
structure DateTimeMin where
  year : ℕ
  month : ℕ
  day : ℕ
  hour : ℕ
  minute : ℕ
  deriving DecidableEq

/-- Two-digit zero padding (`MM`, `dd`, `HH`, `mm`). -/
def pad2 (n : ℕ) : Str := if n < 10 then '0' :: natToStr n else natToStr n

/-- Four-digit zero padding (`yyyy`). -/
def pad4 (n : ℕ) : Str :=
  if n < 10 then '0' :: '0' :: '0' :: natToStr n
  else if n < 100 then '0' :: '0' :: natToStr n
  else if n < 1000 then '0' :: natToStr n
  else natToStr n

/-- `format(new Date(s.sold_at), "yyyy-MM-dd HH:mm")`. -/
def dateToStr (d : DateTimeMin) : Str :=
  pad4 d.year ++ ['-'] ++ pad2 d.month ++ ['-'] ++ pad2 d.day ++ [' '] ++
    pad2 d.hour ++ [':'] ++ pad2 d.minute

lemma pad2_all_digits (n : ℕ) : ∀ c ∈ pad2 n, c.isDigit = true := by
  intro c hc
  rw [pad2] at hc
  split_ifs at hc with h
  · rcases List.mem_cons.1 hc with rfl | hc
    · decide
    · exact natToStr_all_digits n c hc
  · exact natToStr_all_digits n c hc

lemma pad4_all_digits (n : ℕ) : ∀ c ∈ pad4 n, c.isDigit = true := by
  intro c hc
  rw [pad4] at hc
  have hn := natToStr_all_digits n c
  split_ifs at hc with h1 h2 h3
  · rcases List.mem_cons.1 hc with rfl | hc
    · decide
    · rcases List.mem_cons.1 hc with rfl | hc
      · decide
      · rcases List.mem_cons.1 hc with rfl | hc
        · decide
        · exact hn hc
  · rcases List.mem_cons.1 hc with rfl | hc
    · decide
    · rcases List.mem_cons.1 hc with rfl | hc
      · decide
      · exact hn hc
  · rcases List.mem_cons.1 hc with rfl | hc
    · decide
    · exact hn hc
  · exact hn hc

lemma digit_not_special {c : Char} (h : c.isDigit = true) :
    c ≠ ',' ∧ c ≠ '\n' ∧ c ≠ '"' ∧ c.isWhitespace = false := by
  refine ⟨?_, ?_, ?_, ?_⟩
  · rintro rfl; exact absurd h (by decide)
  · rintro rfl; exact absurd h (by decide)
  · rintro rfl; exact absurd h (by decide)
  · by_contra hw
    rw [Bool.not_eq_false] at hw
    simp only [Char.isWhitespace, Bool.or_eq_true, beq_iff_eq,
      decide_eq_true_eq] at hw
    rcases hw with ((h1 | h1) | h1) | h1 <;>
      (subst h1; exact absurd h (by decide))

/-- A CSV cell that survives the import-side `trim` / quote-strip
    untouched and never breaks the row/line structure: no comma, newline
    or quote anywhere, no whitespace at either end. -/
def CleanCell (l : Str) : Prop :=
  (∀ c ∈ l, c ≠ ',' ∧ c ≠ '\n' ∧ c ≠ '"') ∧
    l.head?.all (fun c => !c.isWhitespace) = true ∧
    l.getLast?.all (fun c => !c.isWhitespace) = true

instance (l : Str) : Decidable (CleanCell l) := by
  unfold CleanCell
  infer_instance

lemma CleanCell.trim_eq {l : Str} (h : CleanCell l) : trimStr l = l := by
  apply trimStr_eq_self
  · intro c hc
    have h2 := h.2.1
    rw [hc] at h2
    simpa using h2
  · intro c hc
    have h2 := h.2.2
    rw [hc] at h2
    simpa using h2

lemma CleanCell.strip_eq {l : Str} (h : CleanCell l) : stripQuotes l = l :=
  stripQuotes_eq_self l (fun hq => (h.1 '"' hq).2.2 rfl)

lemma CleanCell.no_comma {l : Str} (h : CleanCell l) : ',' ∉ l :=
  fun hc => (h.1 ',' hc).1 rfl

lemma CleanCell.no_newline {l : Str} (h : CleanCell l) : '\n' ∉ l :=
  fun hc => (h.1 '\n' hc).2.1 rfl

lemma cleanCell_of_all_nonws (l : Str)
    (h : ∀ c ∈ l, c ≠ ',' ∧ c ≠ '\n' ∧ c ≠ '"' ∧ c.isWhitespace = false) :
    CleanCell l := by
  refine ⟨fun c hc => ⟨(h c hc).1, (h c hc).2.1, (h c hc).2.2.1⟩, ?_, ?_⟩
  · cases l with
    | nil => rfl
    | cons c t =>
        have := (h c (by simp)).2.2.2
        simp [this]
  · cases hl : l.getLast? with
    | none => rfl
    | some x =>
        obtain ⟨hne, heq⟩ := List.mem_getLast?_eq_getLast (l := l) (x := x)
          (by simp [hl])
        have hx : x ∈ l := heq ▸ List.getLast_mem hne
        have := (h x hx).2.2.2
        simp [this]

lemma cleanCell_natToStr (n : ℕ) : CleanCell (natToStr n) :=
  cleanCell_of_all_nonws _ (fun c hc =>
    digit_not_special (natToStr_all_digits n c hc))

lemma priceToStr_chars (p : ℚ) :
    ∀ c ∈ priceToStr p, c.isDigit = true ∨ c = '.' := by
  intro c hc
  rw [priceToStr] at hc
  have h10 : ∀ m : ℕ, m % 100 / 10 < 10 := fun m => by omega
  have hm10 : ∀ m : ℕ, m % 100 % 10 < 10 :=
    fun m => Nat.mod_lt _ (by norm_num)
  split_ifs at hc with h1 h2
  · exact Or.inl (natToStr_all_digits _ c hc)
  · rcases List.mem_append.1 hc with hc | hc
    · exact Or.inl (natToStr_all_digits _ c hc)
    · rcases List.mem_cons.1 hc with rfl | hc
      · exact Or.inr rfl
      · rcases List.mem_singleton.1 hc with rfl
        exact Or.inl (digCh_isDigit (h10 _))
  · rcases List.mem_append.1 hc with hc | hc
    · exact Or.inl (natToStr_all_digits _ c hc)
    · rcases List.mem_cons.1 hc with rfl | hc
      · exact Or.inr rfl
      · rcases List.mem_cons.1 hc with rfl | hc
        · exact Or.inl (digCh_isDigit (h10 _))
        · rcases List.mem_singleton.1 hc with rfl
          exact Or.inl (digCh_isDigit (hm10 _))

lemma cleanCell_priceToStr (p : ℚ) : CleanCell (priceToStr p) := by
  apply cleanCell_of_all_nonws
  intro c hc
  rcases priceToStr_chars p c hc with h | rfl
  · exact digit_not_special h
  · exact ⟨by decide, by decide, by decide, by decide⟩

lemma dateToStr_chars (d : DateTimeMin) :
    ∀ c ∈ dateToStr d,
      c.isDigit = true ∨ c = '-' ∨ c = ' ' ∨ c = ':' := by
  intro c hc
  rw [dateToStr] at hc
  simp only [List.append_assoc, List.mem_append, List.mem_singleton] at hc
  rcases hc with hc | hc | hc | hc | hc | hc | hc | hc | hc
  · exact Or.inl (pad4_all_digits _ c hc)
  · exact Or.inr (Or.inl hc)
  · exact Or.inl (pad2_all_digits _ c hc)
  · exact Or.inr (Or.inl hc)
  · exact Or.inl (pad2_all_digits _ c hc)
  · exact Or.inr (Or.inr (Or.inl hc))
  · exact Or.inl (pad2_all_digits _ c hc)
  · exact Or.inr (Or.inr (Or.inr hc))
  · exact Or.inl (pad2_all_digits _ c hc)

lemma dateToStr_no_break (d : DateTimeMin) :
    ∀ c ∈ dateToStr d, c ≠ ',' ∧ c ≠ '\n' ∧ c ≠ '"' := by
  intro c hc
  rcases dateToStr_chars d c hc with h | rfl | rfl | rfl
  · exact ⟨(digit_not_special h).1, (digit_not_special h).2.1,
      (digit_not_special h).2.2.1⟩
  · exact ⟨by decide, by decide, by decide⟩
  · exact ⟨by decide, by decide, by decide⟩
  · exact ⟨by decide, by decide, by decide⟩

lemma head?_append_left (l₁ l₂ : Str) (c : Char) (h : l₁.head? = some c) :
    (l₁ ++ l₂).head? = some c := by
  cases l₁ with
  | nil => simp at h
  | cons a t => simpa using h

lemma getLast?_append_right (l₁ l₂ : Str) (c : Char)
    (h : l₂.getLast? = some c) : (l₁ ++ l₂).getLast? = some c := by
  have hmem : c ∈ l₂.getLast? := Option.mem_def.mpr h
  exact Option.mem_def.mp
    (@List.mem_getLast?_append_of_mem_getLast? _ l₁ l₂ c hmem)

lemma getLast?_append_elim (l₁ l₂ : Str) (c : Char) (hne : l₂ ≠ [])
    (h : (l₁ ++ l₂).getLast? = some c) : l₂.getLast? = some c := by
  have h2 := List.getLast?_eq_getLast_of_ne_nil hne
  have h3 := getLast?_append_right l₁ l₂ _ h2
  rw [h3] at h
  rw [h2, Option.some_inj] at *
  exact h.symm ▸ rfl

lemma natToStr_getLast (n : ℕ) :
    ∃ c, (natToStr n).getLast? = some c ∧ c.isDigit = true := by
  have hne := natToStr_ne_nil n
  refine ⟨(natToStr n).getLast hne,
    List.getLast?_eq_getLast_of_ne_nil hne, ?_⟩
  exact natToStr_all_digits n _ (List.getLast_mem hne)

lemma natToStr_head (n : ℕ) :
    ∃ c, (natToStr n).head? = some c ∧ c.isDigit = true := by
  cases h : natToStr n with
  | nil => exact absurd h (natToStr_ne_nil n)
  | cons a t =>
      exact ⟨a, by simp, natToStr_all_digits n a (by simp [h])⟩

lemma pad2_getLast (n : ℕ) :
    ∃ c, (pad2 n).getLast? = some c ∧ c.isDigit = true := by
  obtain ⟨c, hc, hdig⟩ := natToStr_getLast n
  rw [pad2]
  split_ifs with h
  · exact ⟨c, getLast?_append_right ['0'] _ c hc, hdig⟩
  · exact ⟨c, hc, hdig⟩

lemma pad4_head (n : ℕ) :
    ∃ c, (pad4 n).head? = some c ∧ c.isDigit = true := by
  obtain ⟨c, hc, hdig⟩ := natToStr_head n
  rw [pad4]
  split_ifs with h1 h2 h3
  · exact ⟨'0', rfl, by decide⟩
  · exact ⟨'0', rfl, by decide⟩
  · exact ⟨'0', rfl, by decide⟩
  · exact ⟨c, hc, hdig⟩

lemma cleanCell_dateToStr (d : DateTimeMin) : CleanCell (dateToStr d) := by
  refine ⟨dateToStr_no_break d, ?_, ?_⟩
  · obtain ⟨c, hc, hdig⟩ := pad4_head d.year
    have hh : (dateToStr d).head? = some c := by
      rw [dateToStr]
      simp only [List.append_assoc]
      exact head?_append_left _ _ _ hc
    rw [hh]
    simp [(digit_not_special hdig).2.2.2]
  · obtain ⟨c, hc, hdig⟩ := pad2_getLast d.minute
    have hl : (dateToStr d).getLast? = some c := by
      rw [dateToStr]
      exact getLast?_append_right _ _ _ hc
    rw [hl]
    simp [(digit_not_special hdig).2.2.2]

lemma joinWith_cons_of_ne_nil (sep : Char) (p : Str) (ps : List Str)
    (h : ps ≠ []) : joinWith sep (p :: ps) = p ++ sep :: joinWith sep ps := by
  cases ps with
  | nil => cases h rfl
  | cons q qs => rfl

lemma getLast?_joinWith_last (sep : Char) :
    ∀ (ps : List Str) (t : Str) (c : Char), t.getLast? = some c →
      (joinWith sep (ps ++ [t])).getLast? = some c
  | [], t, c, h => by simpa [joinWith] using h
  | p :: ps, t, c, h => by
      rw [List.cons_append,
        joinWith_cons_of_ne_nil sep p (ps ++ [t]) (by simp)]
      exact getLast?_append_right p _ c
        (getLast?_append_right [sep] _ c (getLast?_joinWith_last sep ps t c h))

lemma joinWith_head_nonws :
    ∀ (row : List Str), (∀ cell ∈ row, CleanCell cell) →
      ∀ c, (joinWith ',' row).head? = some c → c.isWhitespace = false
  | [], _, c, hc => by simp [joinWith] at hc
  | [p], hcells, c, hc => by
      have h2 := (hcells p (by simp)).2.1
      rw [show joinWith ',' [p] = p from rfl] at hc
      rw [hc] at h2
      simpa using h2
  | p :: q :: qs, hcells, c, hc => by
      rw [joinWith_cons_cons] at hc
      cases p with
      | nil =>
          simp at hc
          subst hc
          decide
      | cons a t =>
          have ha : ((a :: t) ++ ',' :: joinWith ',' (q :: qs)).head? =
              some a := rfl
          rw [ha, Option.some_inj] at hc
          subst hc
          have h2 := (hcells (a :: t) (by simp)).2.1
          simpa using h2

lemma joinWith_getLast_nonws :
    ∀ (row : List Str), (∀ cell ∈ row, CleanCell cell) →
      ∀ c, (joinWith ',' row).getLast? = some c → c.isWhitespace = false
  | [], _, c, hc => by simp [joinWith] at hc
  | [p], hcells, c, hc => by
      have h2 := (hcells p (by simp)).2.2
      rw [show joinWith ',' [p] = p from rfl] at hc
      rw [hc] at h2
      simpa using h2
  | p :: q :: qs, hcells, c, hc => by
      rw [joinWith_cons_cons] at hc
      have hc2 : (',' :: joinWith ',' (q :: qs)).getLast? = some c :=
        getLast?_append_elim p _ c (by simp) hc
      cases hj : joinWith ',' (q :: qs) with
      | nil =>
          rw [hj] at hc2
          simp at hc2
          subst hc2
          decide
      | cons b u =>
          rw [hj] at hc2
          have hc3 : (b :: u).getLast? = some c :=
            getLast?_append_elim [','] (b :: u) c (by simp)
              (by simpa using hc2)
          rw [← hj] at hc3
          exact joinWith_getLast_nonws (q :: qs)
            (fun x hx => hcells x (by simp [List.mem_cons.1 hx])) c hc3

/-- A comma-joined row of clean cells parses back to exactly its cells. -/
lemma parse_line (row : List Str) (hne : row ≠ [])
    (hcells : ∀ cell ∈ row, CleanCell cell) :
    (splitOnCh ',' (joinWith ',' row)).map
      (fun c => stripQuotes (trimStr c)) = row := by
  rw [splitOnCh_joinWith ',' row hne
    (fun p hp => (hcells p hp).no_comma)]
  have hid : ∀ cell ∈ row, stripQuotes (trimStr cell) = cell := by
    intro cell hcm
    rw [(hcells cell hcm).trim_eq, (hcells cell hcm).strip_eq]
  calc row.map (fun c => stripQuotes (trimStr c)) = row.map id :=
        List.map_congr_left hid
    _ = row := List.map_id row

/-! ## SalesPage `exportCSV`, AddSalePage `parseCsv` / `importCsv` -/

/-- One row of SalesPage's filtered/sorted view as the export reads it:
    the `?? ""` defaults for the joined event/category names and the
    section are already applied, and `sold_at` is given by its formatted
    wall-clock fields. -/
structure VSale where
  event_name : Str
  category_name : Str
  «section» : Str
  quantity : ℕ
  ticket_price : ℚ
  platform : Str
  sold_at : DateTimeMin
  deriving DecidableEq

/-- The export header `["Event", "Category", "Section", "Qty", "Price",
    "Platform", "Date"]`. -/
def csvHeaderRow : List Str :=
  ["Event".toList, "Category".toList, "Section".toList, "Qty".toList,
    "Price".toList, "Platform".toList, "Date".toList]

/-- One exported data row (SalesPage lines 106–114). -/
def rowOfSale (s : VSale) : List Str :=
  [s.event_name, s.category_name, s.«section», natToStr s.quantity,
    priceToStr s.ticket_price, s.platform, dateToStr s.sold_at]

/-- SalesPage lines 103–121:
    `rows.map((r) => r.join(",")).join("\n")` over header + data rows. -/
def exportCSV (view : List VSale) : Str :=
  joinWith '\n' ((csvHeaderRow :: view.map rowOfSale).map (joinWith ','))

/-- AddSalePage `parseCsv` (lines 75–79):
    `csvText.trim().split("\n").filter((l) => l.trim())
       .map((l) => l.split(",").map((c) => c.trim().replace(/^"|"$/g, "")))`. -/
def parseCsv (csvText : Str) : List (List Str) :=
  ((splitOnCh '\n' (trimStr csvText)).filter
      (fun l => !(trimStr l).isEmpty)).map
    (fun l => (splitOnCh ',' l).map (fun c => stripQuotes (trimStr c)))

/-- An event option loaded into the Add Sale page (`{ id, name }`). -/
structure EventOption where
  id : String
  name : Str
  deriving DecidableEq

def toLowerStr (l : Str) : Str := l.map Char.toLower

/-- `events.find((e) => e.name.toLowerCase() === eventName?.toLowerCase())`:
    an absent cell (undefined) matches nothing. -/
def findEvent (events : List EventOption) (cell : Option Str) :
    Option EventOption :=
  match cell with
  | none => none
  | some nm => events.find? (fun e => toLowerStr e.name == toLowerStr nm)

/-- `parseInt(quantity) || 1`: `NaN` and `0` both default to 1. -/
def qtyOfCell (cell : Option Str) : Int :=
  match cell.bind jsParseInt with
  | none => 1
  | some q => if q = 0 then 1 else q

/-- `parseFloat(price) || 0`: `NaN` defaults to 0. -/
def priceOfCell (cell : Option Str) : ℚ :=
  match cell.bind jsParseFloat with
  | none => 0
  | some x => x

/-- AddSalePage line 90: `platform === "LFT" || platform ===
    "LiveFootballTickets" ? "LiveFootballTickets" : "Tixstock"`. -/
def resolvePlatform (p : Str) : Str :=
  if p = "LFT".toList ∨ p = "LiveFootballTickets".toList
  then "LiveFootballTickets".toList else "Tixstock".toList

/-- The values inserted for one CSV row (AddSalePage lines 91–98);
    `sold_at_cell = none` means "fall back to now". -/
structure SaleInsert where
  event_id : String
  «section» : Option Str
  quantity : Int
  ticket_price : ℚ
  platform : Str
  sold_at_cell : Option Str
  deriving DecidableEq

/-- One iteration of the `importCsv` loop: `none` when the event name
    resolves to no known event (the row is skipped with `continue`). -/
def rowInsert (events : List EventOption) (row : List Str) :
    Option SaleInsert :=
  match findEvent events row[0]? with
  | none => none
  | some ev => some
      { event_id := ev.id
        «section» := match row[2]? with
          | some s => if s = [] then none else some s
          | none => none
        quantity := qtyOfCell row[3]?
        ticket_price := priceOfCell row[4]?
        platform := resolvePlatform (row[5]?.getD [])
        sold_at_cell := match row[6]? with
          | some d => if d = [] then none else some d
          | none => none }

/-- AddSalePage `importCsv` (lines 81–105) over already-parsed rows: skip
    the header, skip rows with unresolved event names, insert the rest;
    the returned count is `success`, the only number the toast reports
    (`"${success} sales imported."`). -/
def importCsv (events : List EventOption) (csvParsed : List (List Str)) :
    List SaleInsert × ℕ :=
  let inserted := (csvParsed.drop 1).filterMap (rowInsert events)
  (inserted, inserted.length)

/-- C10: during CSV import a Platform cell resolves to
    `"LiveFootballTickets"` exactly when it is the string `"LFT"` or
    `"LiveFootballTickets"`; every other value — `"Fanpass"`,
    `"LiveTicketGroup"`, arbitrary text — is silently recorded as
    `"Tixstock"`, never rejected and never preserved as written. -/
theorem platform_resolution (p : Str) :
    (resolvePlatform p = "LiveFootballTickets".toList ↔
        p = "LFT".toList ∨ p = "LiveFootballTickets".toList) ∧
      (resolvePlatform p = "Tixstock".toList ↔
        ¬(p = "LFT".toList ∨ p = "LiveFootballTickets".toList)) ∧
      resolvePlatform "Fanpass".toList = "Tixstock".toList ∧
      resolvePlatform "LiveTicketGroup".toList = "Tixstock".toList := by
  refine ⟨?_, ?_, by decide, by decide⟩ <;>
    by_cases h : p = "LFT".toList ∨ p = "LiveFootballTickets".toList
  · rw [resolvePlatform, if_pos h]
    exact ⟨fun _ => h, fun _ => rfl⟩
  · rw [resolvePlatform, if_neg h]
    exact ⟨fun he => absurd he (by decide), fun hor => absurd hor h⟩
  · rw [resolvePlatform, if_pos h]
    exact ⟨fun he => absurd he (by decide), fun hn => absurd h hn⟩
  · rw [resolvePlatform, if_neg h]
    exact ⟨fun _ => h, fun _ => rfl⟩

lemma length_filterMap_eq {α β : Type} (f : α → Option β) (l : List α) :
    (l.filterMap f).length =
      (l.filter (fun x => (f x).isSome)).length := by
  induction l with
  | nil => rfl
  | cons x xs ih =>
      cases hfx : f x <;>
        simp [List.filterMap_cons, List.filter_cons, hfx, ih]

lemma rowInsert_isSome (events : List EventOption) (row : List Str) :
    (rowInsert events row).isSome = (findEvent events row[0]?).isSome := by
  cases h : findEvent events row[0]? <;> simp [rowInsert, h]

/-- C8 amended: the import inserts exactly the post-header rows whose
    event name resolves (case-insensitively) to a known event, and the
    reported success count is the number of inserted rows; rows with an
    unresolved event name are skipped without aborting the batch (so one
    such row gives `success = totalRows − 1`), while malformed numeric
    cells do not cause a skip — they are defaulted (see the
    counterexample). -/
theorem importCsv_accounting (events : List EventOption)
    (csvParsed : List (List Str)) :
    (importCsv events csvParsed).1 =
        (csvParsed.drop 1).filterMap (rowInsert events) ∧
      (importCsv events csvParsed).2 = (importCsv events csvParsed).1.length ∧
      (importCsv events csvParsed).2 =
        ((csvParsed.drop 1).filter
          (fun r => (findEvent events r[0]?).isSome)).length := by
  refine ⟨rfl, rfl, ?_⟩
  show ((csvParsed.drop 1).filterMap (rowInsert events)).length = _
  rw [length_filterMap_eq,
    List.filter_congr (fun r _ => rowInsert_isSome events r)]

/-- Witness for C8: a 3-row batch whose middle row names an event that
    does not exist imports the other two rows: `success = 3 − 1 = 2`. -/
theorem importCsv_accounting_witness :
    (importCsv [⟨"e1", "liverpool vs arsenal".toList⟩]
        [csvHeaderRow,
          ["Liverpool vs Arsenal".toList, [], [], "2".toList,
            "125.5".toList, "LFT".toList, []],
          ["Chelsea vs Spurs".toList, [], [], "1".toList, "80".toList,
            "Tixstock".toList, []],
          ["LIVERPOOL VS ARSENAL".toList, [], [], "4".toList, "99".toList,
            "Fanpass".toList, []]]).2 = 2 := by
  have h := importCsv_accounting [⟨"e1", "liverpool vs arsenal".toList⟩]
    [csvHeaderRow,
      ["Liverpool vs Arsenal".toList, [], [], "2".toList, "125.5".toList,
        "LFT".toList, []],
      ["Chelsea vs Spurs".toList, [], [], "1".toList, "80".toList,
        "Tixstock".toList, []],
      ["LIVERPOOL VS ARSENAL".toList, [], [], "4".toList, "99".toList,
        "Fanpass".toList, []]]
  rw [h.2.2]
  decide

/-- C8 counterexample: a row whose quantity and price cells are not
    numbers (`"abc"`, `"xyz"`) but whose event name resolves is NOT
    skipped: it is inserted with the defaults `quantity = 1`,
    `ticket_price = 0`, and the import counts it as a success (reporting
    no skipped count at all). -/
theorem importCsv_inserts_malformed_row :
    importCsv [⟨"e1", "liverpool vs arsenal".toList⟩]
        [csvHeaderRow,
          ["Liverpool vs Arsenal".toList, "Liverpool FC".toList,
            "L4".toList, "abc".toList, "xyz".toList, "LFT".toList,
            "2025-04-05 19:30".toList]] =
      ([{ event_id := "e1", «section» := some "L4".toList, quantity := 1,
          ticket_price := 0, platform := "LiveFootballTickets".toList,
          sold_at_cell := some "2025-04-05 19:30".toList }], 1) := by
  decide

/-! ## The export → parse round trip (C9) -/

/-- The `(event, section, quantity, price)` tuple of an in-memory view
    row, with quantity/price as the import interprets numbers. -/
def viewTuple (s : VSale) : Option Str × Option Str × Int × ℚ :=
  (some s.event_name, some s.«section», (s.quantity : Int), s.ticket_price)

/-- The `(event, section, quantity, price)` tuple the import side reads
    from a parsed row (`row[0]`, `row[2]`, `parseInt(row[3]) || 1`,
    `parseFloat(row[4]) || 0`). -/
def rowTuple (r : List Str) : Option Str × Option Str × Int × ℚ :=
  (r[0]?, r[2]?, qtyOfCell r[3]?, priceOfCell r[4]?)

/-- A view row whose text fields cannot break the unquoted CSV format:
    clean cells, a positive integer quantity and a non-negative
    two-decimal price. -/
def CleanSale (s : VSale) : Prop :=
  CleanCell s.event_name ∧ CleanCell s.category_name ∧
    CleanCell s.«section» ∧ CleanCell s.platform ∧
    1 ≤ s.quantity ∧ 0 ≤ s.ticket_price ∧ s.ticket_price.den ∣ 100

instance (s : VSale) : Decidable (CleanSale s) := by
  unfold CleanSale
  infer_instance

lemma header_cells : ∀ cell ∈ csvHeaderRow, CleanCell cell := by decide

lemma rowOfSale_cells (s : VSale) (h : CleanSale s) :
    ∀ cell ∈ rowOfSale s, CleanCell cell := by
  intro cell hc
  rw [rowOfSale] at hc
  simp only [List.mem_cons, List.not_mem_nil, or_false] at hc
  rcases hc with rfl | rfl | rfl | rfl | rfl | rfl | rfl
  · exact h.1
  · exact h.2.1
  · exact h.2.2.1
  · exact cleanCell_natToStr s.quantity
  · exact cleanCell_priceToStr s.ticket_price
  · exact h.2.2.2.1
  · exact cleanCell_dateToStr s.sold_at

lemma line_no_newline (row : List Str)
    (hcells : ∀ cell ∈ row, CleanCell cell) :
    '\n' ∉ joinWith ',' row := by
  intro hmem
  rcases mem_joinWith ',' row '\n' hmem with h | ⟨p, hp, hcp⟩
  · cases h
  · exact (hcells p hp).no_newline hcp

lemma joinWith_ne_nil_two (p q : Str) (ps : List Str) :
    joinWith ',' (p :: q :: ps) ≠ [] := by
  rw [joinWith_cons_cons]
  cases p <;> simp

lemma rowTuple_rowOfSale (s : VSale) (h : CleanSale s) :
    rowTuple (rowOfSale s) = viewTuple s := by
  obtain ⟨h1, h2, h3, h4, hq, hp, hden⟩ := h
  have hqty : qtyOfCell (some (natToStr s.quantity)) = (s.quantity : Int) := by
    rw [qtyOfCell, Option.some_bind, jsParseInt_natToStr]
    have : (s.quantity : Int) ≠ 0 := by
      exact_mod_cast Nat.pos_iff_ne_zero.1 (by omega)
    simp [this]
  have hprice : priceOfCell (some (priceToStr s.ticket_price)) =
      s.ticket_price := by
    rw [priceOfCell, Option.some_bind, jsParseFloat_priceToStr _ hp hden]
  rw [rowTuple, rowOfSale, viewTuple]
  simp only [List.getElem?_cons_zero, List.getElem?_cons_succ]
  rw [hqty, hprice]

/-- The exported text has no whitespace at either end, so the
    import-side `csvText.trim()` leaves it unchanged. -/
lemma trim_exportCSV (view : List VSale) :
    trimStr (exportCSV view) = exportCSV view := by
  have hE : (joinWith ',' csvHeaderRow).head? = some 'E' := by decide
  apply trimStr_eq_self
  · intro c hc
    rw [exportCSV] at hc
    cases hv : view.map rowOfSale with
    | nil =>
        rw [hv] at hc
        rw [show joinWith '\n' ((csvHeaderRow :: []).map (joinWith ',')) =
          joinWith ',' csvHeaderRow from rfl, hE, Option.some_inj] at hc
        subst hc
        decide
    | cons l ls =>
        rw [hv, List.map_cons,
          joinWith_cons_of_ne_nil '\n' _ _ (by simp),
          head?_append_left _ _ 'E' hE, Option.some_inj] at hc
        subst hc
        decide
  · intro c hc
    rw [exportCSV] at hc
    rcases List.eq_nil_or_concat view with hv | ⟨vs, vl, hv⟩
    · rw [hv] at hc
      rw [show joinWith '\n' ((csvHeaderRow :: List.map rowOfSale []).map
        (joinWith ',')) = joinWith ',' csvHeaderRow from rfl] at hc
      rw [show (joinWith ',' csvHeaderRow).getLast? = some 'e' by decide,
        Option.some_inj] at hc
      subst hc
      decide
    · obtain ⟨d, hd, hdig⟩ := pad2_getLast vl.sold_at.minute
      have hdate : (dateToStr vl.sold_at).getLast? = some d := by
        rw [dateToStr]
        exact getLast?_append_right _ _ _ hd
      have hlast : (joinWith ',' (rowOfSale vl)).getLast? = some d := by
        rw [show rowOfSale vl = [vl.event_name, vl.category_name,
          vl.«section», natToStr vl.quantity, priceToStr vl.ticket_price,
          vl.platform] ++ [dateToStr vl.sold_at] from rfl]
        exact getLast?_joinWith_last ',' _ _ d hdate
      have htext : ((csvHeaderRow :: view.map rowOfSale).map
          (joinWith ',')) = ((csvHeaderRow :: vs.map rowOfSale).map
            (joinWith ',')) ++ [joinWith ',' (rowOfSale vl)] := by
        rw [hv, List.concat_eq_append]
        simp [List.map_append]
      rw [htext, getLast?_joinWith_last '\n' _ _ d hlast,
        Option.some_inj] at hc
      subst hc
      exact (digit_not_special hdig).2.2.2

/-- C9 amended: when every textual field of the view is comma-, newline-
    and quote-free with no surrounding whitespace, quantities are ≥ 1 and
    prices are non-negative two-decimal values, re-parsing the exported
    CSV yields exactly the header row plus the original rows, and the
    import-side `(event, section, quantity, price)` tuples equal the
    in-memory view's tuples.  (Without those provisos the round trip
    breaks — see the counterexample with a comma inside `section`.) -/
theorem export_parse_roundtrip (view : List VSale)
    (h : ∀ s ∈ view, CleanSale s) :
    parseCsv (exportCSV view) = csvHeaderRow :: view.map rowOfSale ∧
      ((parseCsv (exportCSV view)).drop 1).map rowTuple =
        view.map viewTuple := by
  have hrows : ∀ row ∈ csvHeaderRow :: view.map rowOfSale,
      ∀ cell ∈ row, CleanCell cell := by
    intro row hrow
    rcases List.mem_cons.1 hrow with rfl | hrow
    · exact header_cells
    · obtain ⟨s, hs, rfl⟩ := List.mem_map.1 hrow
      exact rowOfSale_cells s (h s hs)
  have hshape : ∀ row ∈ csvHeaderRow :: view.map rowOfSale,
      ∃ p q ps, row = p :: q :: ps := by
    intro row hrow
    rcases List.mem_cons.1 hrow with rfl | hrow
    · exact ⟨_, _, _, rfl⟩
    · obtain ⟨s, _, rfl⟩ := List.mem_map.1 hrow
      exact ⟨_, _, _, rfl⟩
  have hmain : parseCsv (exportCSV view) =
      csvHeaderRow :: view.map rowOfSale := by
    rw [parseCsv, trim_exportCSV view, exportCSV]
    rw [splitOnCh_joinWith '\n' _ (by simp) ?hnl]
    case hnl =>
      intro line hline
      obtain ⟨row, hrow, rfl⟩ := List.mem_map.1 hline
      exact line_no_newline row (hrows row hrow)
    rw [List.filter_eq_self.2 ?hkeep]
    case hkeep =>
      intro line hline
      obtain ⟨row, hrow, rfl⟩ := List.mem_map.1 hline
      obtain ⟨p, q, ps, rfl⟩ := hshape row hrow
      have htr : trimStr (joinWith ',' (p :: q :: ps)) =
          joinWith ',' (p :: q :: ps) :=
        trimStr_eq_self _ (joinWith_head_nonws _ (hrows _ hrow))
          (joinWith_getLast_nonws _ (hrows _ hrow))
      rw [htr]
      have := joinWith_ne_nil_two p q ps
      cases hj : joinWith ',' (p :: q :: ps) with
      | nil => exact absurd hj this
      | cons a t => rfl
    rw [List.map_map]
    have : ∀ row ∈ csvHeaderRow :: view.map rowOfSale,
        ((fun l => (splitOnCh ',' l).map (fun c => stripQuotes (trimStr c)))
            ∘ joinWith ',') row = id row := by
      intro row hrow
      obtain ⟨p, q, ps, rfl⟩ := hshape row hrow
      exact parse_line _ (by simp) (hrows _ hrow)
    rw [List.map_congr_left this, List.map_id]
  refine ⟨hmain, ?_⟩
  rw [hmain, List.drop_one, List.tail_cons, List.map_map]
  apply List.map_congr_left
  intro s hs
  exact rowTuple_rowOfSale s (h s hs)

/-- Witness: the C9 amended theorem on a one-row view with clean fields. -/
theorem export_parse_roundtrip_witness :
    parseCsv (exportCSV [⟨"Liverpool vs Arsenal".toList,
          "Liverpool FC".toList, "Block L4".toList, 2, 125,
          "LFT".toList, ⟨2025, 4, 5, 19, 30⟩⟩]) =
        csvHeaderRow :: [⟨"Liverpool vs Arsenal".toList,
          "Liverpool FC".toList, "Block L4".toList, 2, 125,
          "LFT".toList, ⟨2025, 4, 5, 19, 30⟩⟩].map rowOfSale ∧
      ((parseCsv (exportCSV [⟨"Liverpool vs Arsenal".toList,
          "Liverpool FC".toList, "Block L4".toList, 2, 125,
          "LFT".toList, ⟨2025, 4, 5, 19, 30⟩⟩])).drop 1).map rowTuple =
        [⟨"Liverpool vs Arsenal".toList, "Liverpool FC".toList,
          "Block L4".toList, 2, 125, "LFT".toList,
          ⟨2025, 4, 5, 19, 30⟩⟩].map viewTuple :=
  export_parse_roundtrip _ (by decide)

/-- C9 counterexample: a section containing a comma (`"Block L4, Row 2"`)
    shifts every later cell of its exported line, so re-parsing reads
    section `"Block L4"`, quantity `1` (from `parseInt("Row 2") || 1`) and
    price `2` — the tuples differ from the in-memory view. -/
theorem export_parse_roundtrip_fails_on_comma :
    ((parseCsv (exportCSV [⟨"Liverpool vs Arsenal".toList,
          "Liverpool FC".toList, "Block L4, Row 2".toList, 2, 125,
          "LFT".toList, ⟨2025, 4, 5, 19, 30⟩⟩])).drop 1).map rowTuple ≠
      [⟨"Liverpool vs Arsenal".toList, "Liverpool FC".toList,
        "Block L4, Row 2".toList, 2, 125, "LFT".toList,
        ⟨2025, 4, 5, 19, 30⟩⟩].map viewTuple := by
  decide

end DealTide
